import Mathlib

/-!
Verification of the VOX voice-agent core against its specification.

The definitions below are a shallow embedding of the TypeScript sources:
* the deterministic action executor and the regex-based DTMF pre-detector
  (VOX core executor file: `executeAction`, `detectDtmfFromText`);
* the polling reconnection loop and transcript parsing of
  `src/VOX/src/services/vapiService.ts` (`setupWebhookHandler` / `pollOnce`).

Side effects are made explicit: callback invocations become a log of
`CallbackCall` values, and the `onEvent` emissions of the polling loop become
a list of `VEvent` values returned by a step function on an explicit state.
JavaScript character classes are modelled over ASCII (the `\w`, `\s` and
`toLowerCase` behaviour relevant to this code base).
-/

/-- Action kinds of `TakeActionArgs.action`
(`'dtmf' | 'speak' | 'wait' | 'end' | 'transfer'`).
The source's `end` is spelled `end'` because `end` is a Lean keyword. -/
inductive ActionKind
  | dtmf
  | speak
  | wait
  | end'
  | transfer
deriving DecidableEq, Repr

/-- Confidence tiers (`'high' | 'medium' | 'low'`). -/
inductive Confidence
  | high
  | medium
  | low
deriving DecidableEq, Repr

/-- `TakeActionArgs` from the VOX core types file.  The optional `digit`
(typed `'0'..'9' | '*' | '#'` in the source) is an optional `Char`;
`undefined` is `none`. -/
structure TakeActionArgs where
  heard : String
  action : ActionKind
  digit : Option Char
  say : Option String
  confidence : Confidence
deriving DecidableEq, Repr

/-- `ExecutionResult` from the executor file. -/
structure ExecutionResult where
  executed : Bool
  action : String
  details : Option String
deriving DecidableEq, Repr

/-- One invocation of an `ExecutorCallbacks` member.  `executeAction` is
modelled as returning, besides its `ExecutionResult`, the exact list of
callback invocations it performed, in order. -/
inductive CallbackCall
  | sendDtmf (digit : Char)
  | endCall
  | transfer (number : String)
deriving DecidableEq, Repr

/-- `executeAction(args, callbacks, customerNumber?)` of the executor file.
The switch over `args.action`; each branch returns one `ExecutionResult` and
performs the listed callback invocations.  The JS falsiness test
`if (!args.digit)` is `digit = none` (the typed digit strings are all
non-empty, hence truthy).  The function is total: no branch throws. -/
def executeAction (args : TakeActionArgs) (customerNumber : Option String) :
    ExecutionResult × List CallbackCall :=
  match args.action with
  | ActionKind.dtmf =>
    match args.digit with
    | none =>
      ({ executed := false, action := "dtmf", details := some "missing digit" }, [])
    | some d =>
      ({ executed := true, action := "dtmf",
         details := some ("pressed " ++ String.singleton d) },
       [CallbackCall.sendDtmf d])
  | ActionKind.end' =>
    ({ executed := true, action := "end", details := some "call ended" },
     [CallbackCall.endCall])
  | ActionKind.transfer =>
    match customerNumber with
    | none =>
      ({ executed := false, action := "transfer", details := some "no customer number" }, [])
    | some n =>
      ({ executed := true, action := "transfer",
         details := some ("transferring to " ++ n) },
       [CallbackCall.transfer n])
  | ActionKind.speak =>
    -- speech is handled by the voice layer via the say field
    ({ executed := true, action := "speak", details := some (args.say.getD "") }, [])
  | ActionKind.wait =>
    -- do nothing - just wait (also the switch's default branch)
    ({ executed := true, action := "wait", details := some "waiting" }, [])

/-- JS `\w` over ASCII: `[A-Za-z0-9_]`. -/
def isWordChar (c : Char) : Bool :=
  c.isAlpha || c.isDigit || c = '_'

/-- JS `\s` restricted to the ASCII whitespace characters. -/
def isWsChar (c : Char) : Bool :=
  c = ' ' || c = '\t' || c = '\n' || c = '\r' || c = '\x0b' || c = '\x0c'

/-- Drop a literal character sequence; `none` when the input does not start
with it. -/
def dropLit : List Char → List Char → Option (List Char)
  | [], l => some l
  | _ :: _, [] => none
  | c :: cs, x :: xs => if x = c then dropLit cs xs else none

/-- Skip a (possibly empty) run of whitespace. -/
def skipWs : List Char → List Char
  | [] => []
  | c :: rest => if isWsChar c then skipWs rest else c :: rest

/-- `\s+`: require at least one whitespace character, then skip the maximal
run.  (Greedy matching is exact here: in every use below the character
required after `\s+` is never itself whitespace, so backtracking to a shorter
run can never succeed.) -/
def wsSkip1 (l : List Char) : Option (List Char) :=
  match l with
  | [] => none
  | c :: rest => if isWsChar c then some (skipWs rest) else none

/-- Skip a (possibly empty) run of word characters. -/
def skipWord : List Char → List Char
  | [] => []
  | c :: rest => if isWordChar c then skipWord rest else c :: rest

/-- `\w+` (maximal run; the character class required next is disjoint from
`\w` in the one use below). -/
def wordSkip1 (l : List Char) : Option (List Char) :=
  match l with
  | [] => none
  | c :: rest => if isWordChar c then some (skipWord rest) else none

/-- Membership in `[,\s]`. -/
def isCommaWs (c : Char) : Bool := c = ',' || isWsChar c

/-- Skip a (possibly empty) run of `[,\s]` characters. -/
def skipCommaWs : List Char → List Char
  | [] => []
  | c :: rest => if isCommaWs c then skipCommaWs rest else c :: rest

/-- `[,\s]+` (maximal run; the literal required next starts with a word
character, disjoint from `[,\s]`). -/
def commaWsSkip1 (l : List Char) : Option (List Char) :=
  match l with
  | [] => none
  | c :: rest => if isCommaWs c then some (skipCommaWs rest) else none

/-- `\b` to the right of a word character: holds at end of input or when the
next character is not a word character. -/
def boundaryAfter : List Char → Bool
  | [] => true
  | c :: _ => !isWordChar c

/-- The regex `\bpress\s+([0-9])\b` attempted at one fixed start position
(the `\b` on the left is handled by the scanner's previous-character flag):
literal `press`, one-or-more whitespace, a single digit, word boundary. -/
def matchPressDigitHere (l : List Char) : Option Char :=
  match dropLit "press".data l with
  | none => none
  | some r1 =>
    match wsSkip1 r1 with
    | none => none
    | some r2 =>
      match r2 with
      | [] => none
      | d :: rest => if d.isDigit && boundaryAfter rest then some d else none

/-- Left-to-right scan for the first match of `\bpress\s+([0-9])\b`.
`pw` records whether the character before the current position is a word
character (`false` at the start of the input), which decides the leading
`\b`. -/
def findPressDigit : Bool → List Char → Option Char
  | _, [] => none
  | pw, c :: rest =>
    match (if pw then none else matchPressDigitHere (c :: rest)) with
    | some d => some d
    | none => findPressDigit (isWordChar c) rest

/-- The four alternatives of `(star|pound|asterisk|hash)`. -/
inductive SpecialWord
  | star
  | pound
  | asterisk
  | hash
deriving DecidableEq, Repr

/-- The alternation `(star|pound|asterisk|hash)\b` at one position, tried in
source order.  The four literals begin with distinct characters, so at most
one alternative's literal can match; a failed trailing `\b` therefore cannot
be rescued by a later alternative. -/
def matchSpecialWord (l : List Char) : Option SpecialWord :=
  match dropLit "star".data l with
  | some rest => if boundaryAfter rest then some SpecialWord.star else none
  | none =>
  match dropLit "pound".data l with
  | some rest => if boundaryAfter rest then some SpecialWord.pound else none
  | none =>
  match dropLit "asterisk".data l with
  | some rest => if boundaryAfter rest then some SpecialWord.asterisk else none
  | none =>
  match dropLit "hash".data l with
  | some rest => if boundaryAfter rest then some SpecialWord.hash else none
  | none => none

/-- `\bpress\s+(star|pound|asterisk|hash)\b` at one fixed start position. -/
def matchPressSpecialHere (l : List Char) : Option SpecialWord :=
  match dropLit "press".data l with
  | none => none
  | some r1 =>
    match wsSkip1 r1 with
    | none => none
    | some r2 => matchSpecialWord r2

/-- Left-to-right scan for `\bpress\s+(star|pound|asterisk|hash)\b`. -/
def findPressSpecial : Bool → List Char → Option SpecialWord
  | _, [] => none
  | pw, c :: rest =>
    match (if pw then none else matchPressSpecialHere (c :: rest)) with
    | some w => some w
    | none => findPressSpecial (isWordChar c) rest

/-- The regex `for\s+\w+[,\s]+press\s+([0-9*#])` (no word boundaries) at one
fixed start position.  All adjacent class/literal pairs are disjoint, so
greedy maximal runs are exact (no backtracking can succeed where the greedy
parse fails). -/
def matchForPressHere (l : List Char) : Option Char :=
  match dropLit "for".data l with
  | none => none
  | some r1 =>
    match wsSkip1 r1 with
    | none => none
    | some r2 =>
      match wordSkip1 r2 with
      | none => none
      | some r3 =>
        match commaWsSkip1 r3 with
        | none => none
        | some r4 =>
          match dropLit "press".data r4 with
          | none => none
          | some r5 =>
            match wsSkip1 r5 with
            | none => none
            | some r6 =>
              match r6 with
              | [] => none
              | d :: _ => if d.isDigit || d = '*' || d = '#' then some d else none

/-- Left-to-right scan for `for\s+\w+[,\s]+press\s+([0-9*#])`. -/
def findForPress : List Char → Option Char
  | [] => none
  | c :: rest =>
    match matchForPressHere (c :: rest) with
    | some d => some d
    | none => findForPress rest

/-- `transcript.toLowerCase()` as a character list (ASCII lowering). -/
def jsToLower (s : String) : List Char :=
  s.data.map Char.toLower

/-- `detectDtmfFromText(transcript)` of the executor file: lowercase the
input, then try the three patterns in order and build the corresponding
`TakeActionArgs`. -/
def detectDtmfFromText (transcript : String) : Option TakeActionArgs :=
  let text := jsToLower transcript
  match findPressDigit false text with
  | some d =>
    some { heard := "menu prompt", action := ActionKind.dtmf, digit := some d,
           say := none, confidence := Confidence.high }
  | none =>
  match findPressSpecial false text with
  | some w =>
    let d := if w = SpecialWord.star ∨ w = SpecialWord.asterisk then '*' else '#'
    some { heard := "menu prompt", action := ActionKind.dtmf, digit := some d,
           say := none, confidence := Confidence.high }
  | none =>
  match findForPress text with
  | some d =>
    -- source: `d === '*' ? '*' : d === '#' ? '#' : d`
    let digit := if d = '*' then '*' else if d = '#' then '#' else d
    some { heard := "menu option", action := ActionKind.dtmf, digit := some digit,
           say := none, confidence := Confidence.high }
  | none => none

/-- The attempt of `\bpress\s+([0-9])\b` at a fixed position `i` of the
input, with `pw` the word-character flag for the character preceding the
whole input.  `findPressDigit` returns the result of the first position at
which this succeeds. -/
def pressDigitAt : Bool → List Char → Nat → Option Char
  | pw, l, 0 => if pw then none else matchPressDigitHere l
  | _, [], _ + 1 => none
  | _, c :: rest, i + 1 => pressDigitAt (isWordChar c) rest i

/-- The attempt of `\bpress\s+(star|pound|asterisk|hash)\b` at a fixed
position `i` of the input. -/
def pressSpecialAt : Bool → List Char → Nat → Option SpecialWord
  | pw, l, 0 => if pw then none else matchPressSpecialHere l
  | _, [], _ + 1 => none
  | _, c :: rest, i + 1 => pressSpecialAt (isWordChar c) rest i

/-- Executable substring test (used to state counterexamples about inputs
"containing" a given fragment). -/
def containsLit (pat : List Char) : List Char → Bool
  | [] => (dropLit pat []).isSome
  | c :: rest => (dropLit pat (c :: rest)).isSome || containsLit pat rest

theorem findPressDigit_of_first (i : Nat) :
    ∀ (pw : Bool) (l : List Char) (d : Char),
      pressDigitAt pw l i = some d →
      (∀ j, j < i → pressDigitAt pw l j = none) →
      findPressDigit pw l = some d := by
  induction i with
  | zero =>
    intro pw l d h _
    cases pw with
    | false =>
      simp only [pressDigitAt] at h
      rw [if_neg Bool.false_ne_true] at h
      cases l with
      | nil =>
        rw [show matchPressDigitHere [] = none from rfl] at h
        exact Option.noConfusion h
      | cons c rest =>
        have hfd : findPressDigit false (c :: rest) =
            (match matchPressDigitHere (c :: rest) with
             | some d => some d
             | none => findPressDigit (isWordChar c) rest) := rfl
        rw [hfd, h]
    | true =>
      simp [pressDigitAt] at h
  | succ i ih =>
    intro pw l d h hnone
    cases l with
    | nil => exact Option.noConfusion h
    | cons c rest =>
      have h0 : pressDigitAt pw (c :: rest) 0 = none := hnone 0 (Nat.succ_pos i)
      simp only [pressDigitAt] at h0
      have hrec : pressDigitAt (isWordChar c) rest i = some d := h
      have hnone' : ∀ j, j < i → pressDigitAt (isWordChar c) rest j = none := by
        intro j hj
        exact hnone (j + 1) (Nat.succ_lt_succ hj)
      simp only [findPressDigit, h0]
      exact ih _ _ _ hrec hnone'

theorem findPressSpecial_of_first (i : Nat) :
    ∀ (pw : Bool) (l : List Char) (w : SpecialWord),
      pressSpecialAt pw l i = some w →
      (∀ j, j < i → pressSpecialAt pw l j = none) →
      findPressSpecial pw l = some w := by
  induction i with
  | zero =>
    intro pw l w h _
    cases pw with
    | false =>
      simp only [pressSpecialAt] at h
      rw [if_neg Bool.false_ne_true] at h
      cases l with
      | nil =>
        rw [show matchPressSpecialHere [] = none from rfl] at h
        exact Option.noConfusion h
      | cons c rest =>
        have hfs : findPressSpecial false (c :: rest) =
            (match matchPressSpecialHere (c :: rest) with
             | some w => some w
             | none => findPressSpecial (isWordChar c) rest) := rfl
        rw [hfs, h]
    | true =>
      simp [pressSpecialAt] at h
  | succ i ih =>
    intro pw l w h hnone
    cases l with
    | nil => exact Option.noConfusion h
    | cons c rest =>
      have h0 : pressSpecialAt pw (c :: rest) 0 = none := hnone 0 (Nat.succ_pos i)
      simp only [pressSpecialAt] at h0
      have hnone' : ∀ j, j < i → pressSpecialAt (isWordChar c) rest j = none := by
        intro j hj
        exact hnone (j + 1) (Nat.succ_lt_succ hj)
      simp only [findPressSpecial, h0]
      exact ih _ _ _ h hnone'

theorem pressDigitAt_none_of_le (j : Nat) :
    ∀ (l : List Char) (pw : Bool), l.length ≤ j → pressDigitAt pw l j = none := by
  induction j with
  | zero =>
    intro l pw h
    have hl : l = [] := List.eq_nil_of_length_eq_zero (Nat.le_zero.mp h)
    subst hl
    cases pw with
    | false => rfl
    | true => rfl
  | succ j ih =>
    intro l pw h
    cases l with
    | nil => rfl
    | cons c rest => exact ih rest _ (Nat.le_of_succ_le_succ h)

theorem findPressDigit_eq_none :
    ∀ (l : List Char) (pw : Bool),
      (∀ j, pressDigitAt pw l j = none) → findPressDigit pw l = none := by
  intro l
  induction l with
  | nil => intro pw _; rfl
  | cons c rest ih =>
    intro pw hall
    have h0 : pressDigitAt pw (c :: rest) 0 = none := hall 0
    simp only [pressDigitAt] at h0
    simp only [findPressDigit, h0]
    exact ih _ (fun j => hall (j + 1))

/-- The `matchPressDigitHere` success value is always a decimal digit. -/
theorem matchPressDigitHere_isDigit {l : List Char} {d : Char}
    (h : matchPressDigitHere l = some d) : d.isDigit = true := by
  unfold matchPressDigitHere at h
  repeat' split at h
  all_goals simp_all

theorem findPressDigit_isDigit :
    ∀ (l : List Char) (pw : Bool) (d : Char),
      findPressDigit pw l = some d → d.isDigit = true := by
  intro l
  induction l with
  | nil => intro pw d h; exact Option.noConfusion h
  | cons c rest ih =>
    intro pw d h
    simp only [findPressDigit] at h
    split at h
    · rename_i heq
      split at heq
      · exact Option.noConfusion heq
      · cases h; exact matchPressDigitHere_isDigit heq
    · exact ih _ _ h

/-- The `matchForPressHere` success value is a digit, `*` or `#`. -/
theorem matchForPressHere_valid {l : List Char} {d : Char}
    (h : matchForPressHere l = some d) :
    d.isDigit = true ∨ d = '*' ∨ d = '#' := by
  unfold matchForPressHere at h
  repeat' split at h
  all_goals (simp_all; try tauto)

theorem findForPress_valid :
    ∀ (l : List Char) (d : Char),
      findForPress l = some d → d.isDigit = true ∨ d = '*' ∨ d = '#' := by
  intro l
  induction l with
  | nil => intro d h; exact Option.noConfusion h
  | cons c rest ih =>
    intro d h
    simp only [findForPress] at h
    split at h
    · rename_i heq; cases h; exact matchForPressHere_valid heq
    · exact ih _ h

/-- C2: `executeAction` returns normally on a malformed decision — a `dtmf`
decision with no digit yields `executed := false` with detail
"missing digit", a `transfer` decision with no customer number yields
`executed := false` with detail "no customer number", and in both cases the
callback log is empty (no `sendDtmf`, `endCall` or `transfer` invocation).
Totality of `executeAction` models "it never throws". -/
theorem executeAction_malformed_reports (heard : String) (say : Option String)
    (conf : Confidence) :
    (∀ cn : Option String,
      executeAction ⟨heard, ActionKind.dtmf, none, say, conf⟩ cn =
        ({ executed := false, action := "dtmf", details := some "missing digit" }, [])) ∧
    (∀ digit : Option Char,
      executeAction ⟨heard, ActionKind.transfer, digit, say, conf⟩ none =
        ({ executed := false, action := "transfer",
           details := some "no customer number" }, [])) :=
  ⟨fun _ => rfl, fun _ => rfl⟩

/-- C3: for a `dtmf` decision whose digit is one of `0`-`9`, `*`, `#`,
`executeAction` performs exactly one callback invocation, `sendDtmf` with
that very digit, and returns `executed := true`. -/
theorem executeAction_dtmf_sends_digit (heard : String) (d : Char)
    (say : Option String) (conf : Confidence) (cn : Option String)
    (hd : d.isDigit = true ∨ d = '*' ∨ d = '#') :
    executeAction ⟨heard, ActionKind.dtmf, some d, say, conf⟩ cn =
      ({ executed := true, action := "dtmf",
         details := some ("pressed " ++ String.singleton d) },
       [CallbackCall.sendDtmf d]) := rfl

/-- Witness for `executeAction_dtmf_sends_digit` at digit `'5'`. -/
theorem executeAction_dtmf_sends_digit_witness :
    executeAction ⟨"menu", ActionKind.dtmf, some '5', none, Confidence.high⟩ none =
      ({ executed := true, action := "dtmf", details := some "pressed 5" },
       [CallbackCall.sendDtmf '5']) :=
  executeAction_dtmf_sends_digit "menu" '5' none Confidence.high none (Or.inl (by decide))

/-- C4 counterexample: `"press 34"` contains the substring `"press 3"`, yet
`detectDtmfFromText` returns `none` (the trailing `\b` of the first pattern
fails between `3` and `4`), refuting the claim that every input containing
`"press 3"` yields a non-null `dtmf`/`'3'` decision. -/
theorem detect_press3_counterexample :
    containsLit "press 3".data "press 34".data = true ∧
    detectDtmfFromText "press 34" = none := by decide

/-- C4 (amended): if the lowercased input has a whole-word
`press`-whitespace-`3` occurrence at position `i` (leading and trailing word
boundary included) and the press-digit pattern matches at no earlier
position, then `detectDtmfFromText` returns the `dtmf` decision with digit
`'3'` and confidence `high`. -/
theorem detect_press3_first_match (s : String) (i : Nat)
    (h1 : pressDigitAt false (jsToLower s) i = some '3')
    (h2 : ∀ j, j < i → pressDigitAt false (jsToLower s) j = none) :
    detectDtmfFromText s =
      some { heard := "menu prompt", action := ActionKind.dtmf, digit := some '3',
             say := none, confidence := Confidence.high } := by
  have hf := findPressDigit_of_first i false (jsToLower s) '3' h1 h2
  simp only [detectDtmfFromText, hf]

/-- Witness for `detect_press3_first_match` on the input `"press 3"`. -/
theorem detect_press3_first_match_witness :
    detectDtmfFromText "press 3" =
      some { heard := "menu prompt", action := ActionKind.dtmf, digit := some '3',
             say := none, confidence := Confidence.high } :=
  detect_press3_first_match "press 3" 0 (by decide) (by decide)

/-- C5 counterexample: `"press stars"` contains the substring
`"press star"`, yet `detectDtmfFromText` returns `none` (the trailing `\b`
after `star` fails before the final `s`), refuting the claim that every
input containing `"press star"` yields the `'*'` decision. -/
theorem detect_press_star_counterexample :
    containsLit "press star".data "press stars".data = true ∧
    detectDtmfFromText "press stars" = none := by decide

/-- C5 (amended): if the lowercased input nowhere matches the press-digit
pattern (which is tried first on the whole text), has a whole-word
`press star|pound|asterisk|hash` occurrence at position `i`, and the
press-special pattern matches at no earlier position, then
`detectDtmfFromText` returns the `dtmf` decision whose digit is `'*'` for
`star`/`asterisk` and `'#'` for `pound`/`hash`, confidence `high`. -/
theorem detect_press_special_first_match (s : String) (i : Nat) (w : SpecialWord)
    (hd : ∀ j, j < (jsToLower s).length → pressDigitAt false (jsToLower s) j = none)
    (h1 : pressSpecialAt false (jsToLower s) i = some w)
    (h2 : ∀ j, j < i → pressSpecialAt false (jsToLower s) j = none) :
    detectDtmfFromText s =
      some { heard := "menu prompt", action := ActionKind.dtmf,
             digit := some (if w = SpecialWord.star ∨ w = SpecialWord.asterisk
                            then '*' else '#'),
             say := none, confidence := Confidence.high } := by
  have hdall : ∀ j, pressDigitAt false (jsToLower s) j = none := by
    intro j
    by_cases hj : j < (jsToLower s).length
    · exact hd j hj
    · exact pressDigitAt_none_of_le j _ _ (Nat.le_of_not_lt hj)
  have hnone := findPressDigit_eq_none (jsToLower s) false hdall
  have hf := findPressSpecial_of_first i false (jsToLower s) w h1 h2
  simp only [detectDtmfFromText, hnone, hf]

/-- Witness for `detect_press_special_first_match` on the input
`"press star"`. -/
theorem detect_press_special_first_match_witness :
    detectDtmfFromText "press star" =
      some { heard := "menu prompt", action := ActionKind.dtmf, digit := some '*',
             say := none, confidence := Confidence.high } :=
  detect_press_special_first_match "press star" 0 SpecialWord.star
    (by decide) (by decide) (by decide)

/-- C10: every non-null result of `detectDtmfFromText` is well-formed for
execution: its action is `dtmf`, its confidence is `high`, and its digit is
present and one of `0`-`9`, `*`, `#`; consequently `executeAction` on such a
decision takes the successful `sendDtmf` branch (never the "missing digit"
anomaly path), for any customer number. -/
theorem detect_result_wellformed (s : String) (args : TakeActionArgs)
    (h : detectDtmfFromText s = some args) :
    args.action = ActionKind.dtmf ∧ args.confidence = Confidence.high ∧
    ∃ d, args.digit = some d ∧ (d.isDigit = true ∨ d = '*' ∨ d = '#') ∧
      ∀ cn, executeAction args cn =
        ({ executed := true, action := "dtmf",
           details := some ("pressed " ++ String.singleton d) },
         [CallbackCall.sendDtmf d]) := by
  simp only [detectDtmfFromText] at h
  cases hfd : findPressDigit false (jsToLower s) with
  | some d =>
    rw [hfd] at h
    simp only [Option.some.injEq] at h
    subst h
    refine ⟨rfl, rfl, d, rfl, Or.inl (findPressDigit_isDigit _ _ _ hfd), fun cn => rfl⟩
  | none =>
    rw [hfd] at h
    cases hfs : findPressSpecial false (jsToLower s) with
    | some w =>
      rw [hfs] at h
      simp only [Option.some.injEq] at h
      subst h
      refine ⟨rfl, rfl, _, rfl, ?_, fun cn => rfl⟩
      by_cases hw : w = SpecialWord.star ∨ w = SpecialWord.asterisk
      · rw [if_pos hw]; exact Or.inr (Or.inl rfl)
      · rw [if_neg hw]; exact Or.inr (Or.inr rfl)
    | none =>
      rw [hfs] at h
      cases hfp : findForPress (jsToLower s) with
      | some d =>
        rw [hfp] at h
        simp only [Option.some.injEq] at h
        subst h
        have hv := findForPress_valid _ _ hfp
        rcases hv with hdig | hstar | hhash
        · refine ⟨rfl, rfl, d, ?_, ?_, fun cn => ?_⟩
          · show some (if d = '*' then '*' else if d = '#' then '#' else d) = some d
            have h1 : d ≠ '*' := by rintro rfl; simp at hdig
            have h2 : d ≠ '#' := by rintro rfl; simp at hdig
            rw [if_neg h1, if_neg h2]
          · exact Or.inl hdig
          · have h1 : d ≠ '*' := by rintro rfl; simp at hdig
            have h2 : d ≠ '#' := by rintro rfl; simp at hdig
            simp only [executeAction, if_neg h1, if_neg h2]
        · subst hstar
          exact ⟨rfl, rfl, '*', rfl, Or.inr (Or.inl rfl), fun cn => rfl⟩
        · subst hhash
          exact ⟨rfl, rfl, '#', rfl, Or.inr (Or.inr rfl), fun cn => rfl⟩
      | none => rw [hfp] at h; exact Option.noConfusion h

/-- Witness for `detect_result_wellformed` on the input `"press 3"`. -/
theorem detect_result_wellformed_witness :
    ∃ args, detectDtmfFromText "press 3" = some args ∧
      args.action = ActionKind.dtmf ∧ args.confidence = Confidence.high := by
  have hdet : detectDtmfFromText "press 3" =
      some { heard := "menu prompt", action := ActionKind.dtmf, digit := some '3',
             say := none, confidence := Confidence.high } := by decide
  have h := detect_result_wellformed "press 3" _ hdet
  exact ⟨_, hdet, h.1, h.2.1⟩

/-- The fields of the provider call resource that `pollOnce` reads:
`status`, `endedAt`, `transcript`, `analysis.summary`.  Optional fields are
`none` when absent (`undefined`). -/
structure CallData where
  status : String
  endedAt : Option String
  transcript : Option String
  analysisSummary : Option String
deriving DecidableEq, Repr

/-- The `VAPICallEvent`s that the polling code can emit through `onEvent`
(`call-status`, `transcript`, `call-ended`), plus the `error` variant of the
`VAPICallEvent` type so that "no error event is ever emitted" is statable. -/
inductive VEvent
  | callStatus (status : String)
  | transcript (role : String) (content : String) (speaker : String)
  | callEnded (call : CallData)
  | errorEv (message : String)
deriving DecidableEq, Repr

/-- The split `transcript.split(/(?=(AI:|User:))/g)` of `pollOnce`.
JavaScript splits at every zero-width lookahead match after the current
segment start, and — because the lookahead contains a capture group — splices
the captured tag (`AI:` tried before `User:`) into the result array between
the segments.  `acc` is the current segment, reversed; it is empty exactly at
a previous split position (or the input start), where a zero-width match is
skipped. -/
def splitOnSpeaker : List Char → List Char → List (List Char)
  | [], acc => [acc.reverse]
  | c :: rest, acc =>
    if acc ≠ [] ∧ ((dropLit "AI:".data (c :: rest)).isSome ∨
                   (dropLit "User:".data (c :: rest)).isSome) then
      acc.reverse ::
        (if (dropLit "AI:".data (c :: rest)).isSome then "AI:".data else "User:".data) ::
        splitOnSpeaker rest [c]
    else
      splitOnSpeaker rest (c :: acc)

/-- Strip leading whitespace from a character list. -/
def trimLeft : List Char → List Char
  | [] => []
  | c :: rest => if isWsChar c then trimLeft rest else c :: rest

/-- JS `String.prototype.trim()` (over ASCII whitespace): strip whitespace
from both ends. -/
def jsTrim (s : String) : String :=
  String.mk ((trimLeft ((trimLeft s.data).reverse)).reverse)

/-- JS `String.prototype.startsWith(tag)`. -/
def jsStartsWith (tag : String) (s : String) : Bool :=
  (dropLit tag.data s.data).isSome

/-- JS `String.prototype.includes(c)` for a single character. -/
def containsChar (ch : Char) : List Char → Bool
  | [] => false
  | c :: rest => c = ch || containsChar ch rest

/-- The speaker/content assignment of the `lines.forEach` body in
`pollOnce`: the recognized `AI:` / `User:` tags override the
`Other Party` default (the source's `!line.includes(':')` branch assigns
the same values as the default and is kept as written).  `substring(n)` is
dropping `n` characters. -/
def lineSpeakerContent (line : String) : String × String :=
  if jsStartsWith "AI:" line then ("VOX", jsTrim (String.mk (line.data.drop 3)))
  else if jsStartsWith "User:" line then
    ("Other Party", jsTrim (String.mk (line.data.drop 5)))
  else if !(containsChar ':' line.data) then ("Other Party", jsTrim line)
  else ("Other Party", jsTrim line)

/-- The emission decision of the `lines.forEach` body: emit one transcript
event (role derived from the speaker) unless the content is empty or the
placeholder `"Audio detected"`. -/
def transcriptLineEvent (line : String) : Option VEvent :=
  let sc := lineSpeakerContent line
  if sc.2 ≠ "" ∧ sc.2 ≠ "Audio detected" then
    some (VEvent.transcript (if sc.1 = "VOX" then "assistant" else "user") sc.2 sc.1)
  else
    none

/-- The transcript events emitted for a raw transcript string: split on the
speaker tags, keep the fragments with non-blank trims, then process each
fragment in order. -/
def transcriptEventsOf (t : String) : List VEvent :=
  let lines := (splitOnSpeaker t.data []).map String.mk
  (lines.filter (fun line => jsTrim line ≠ "")).filterMap transcriptLineEvent

/-- `call.status === 'ended' || call.endedAt` of `pollOnce`. -/
def isTerminal (call : CallData) : Bool :=
  call.status = "ended" || call.endedAt.isSome

/-- The events emitted by the terminal branch of `pollOnce`: the parsed
transcript (when present and non-empty), one system-tagged summary event
(when `call.analysis?.summary` is truthy), then the single `call-ended`
event. -/
def terminalEvents (call : CallData) : List VEvent :=
  (match call.transcript with
   | some t => if t ≠ "" then transcriptEventsOf t else []
   | none => []) ++
  (match call.analysisSummary with
   | some summary =>
     if summary ≠ "" then
       [VEvent.transcript "system" ("Call Summary: " ++ summary) "System"]
     else []
   | none => []) ++
  [VEvent.callEnded call]

/-- The outcome of one `getCall` fetch: the call resource, or a rejection
classified the way the catch block of `pollOnce` classifies it
(rate-limit by message/status, CORS / failed-to-fetch). -/
inductive FetchResult
  | ok (call : CallData)
  | err (isRateLimit : Bool) (isCors : Bool)
deriving DecidableEq, Repr

/-- The state of one watcher invocation of `setupWebhookHandler`.
`lastCallStatus`, `transcriptProcessed`, `consecutiveErrors` and `pollDelay`
live in the handler closure (they are shared between successive watcher
invocations of the same handler); `isPolling` and the two timer flags are
per invocation.  `timerPending` models a scheduled `pollTimeout`;
`finalPending` models the anonymous 30-second final-check timeout, which is
not stored in `pollTimeout` and hence not cleared by the cleanup function. -/
structure WatcherState where
  lastCallStatus : String
  transcriptProcessed : Bool
  consecutiveErrors : Nat
  pollDelay : Nat
  isPolling : Bool
  timerPending : Bool
  finalPending : Bool
deriving DecidableEq, Repr

/-- One firing of `pollOnce` whose `getCall` resolved to `fr`.  A tick can
only fire while a poll timeout is pending; firing consumes it. -/
def stepTick (s : WatcherState) (fr : FetchResult) : WatcherState × List VEvent :=
  if !s.timerPending then (s, [])
  else
    let s0 := { s with timerPending := false }
    if !s0.isPolling then (s0, [])
    else
      match fr with
      | FetchResult.ok call =>
        -- reset error counter and delay on successful fetch
        let s1 := if s0.consecutiveErrors > 0 then
                    { s0 with consecutiveErrors := 0, pollDelay := 5000 }
                  else s0
        -- emit status changes
        let changed := call.status ≠ "" ∧ call.status ≠ s1.lastCallStatus
        let statusEvs := if changed then [VEvent.callStatus call.status] else []
        let s2 := if changed then { s1 with lastCallStatus := call.status } else s1
        -- when call ends, process the full transcript
        if isTerminal call ∧ s2.transcriptProcessed = false then
          ({ s2 with transcriptProcessed := true, isPolling := false },
           statusEvs ++ terminalEvents call)
        else
          -- schedule next poll
          ({ s2 with timerPending := s2.isPolling }, statusEvs)
      | FetchResult.err isRateLimit isCors =>
        let errs := s0.consecutiveErrors + 1
        let backoff := isRateLimit || (isCors && decide (errs > 1))
        let delay' := if backoff then min (s0.pollDelay * 2) 30000 else s0.pollDelay
        let evs := if backoff ∧ errs = 3 then [VEvent.callStatus "monitoring"] else []
        let s1 := { s0 with consecutiveErrors := errs, pollDelay := delay' }
        if errs ≥ 5 then
          -- too many errors: stop regular polling, schedule one final check
          ({ s1 with isPolling := false, finalPending := true }, evs)
        else
          ({ s1 with timerPending := s1.isPolling }, evs)

/-- One firing of the delayed final check scheduled after the maximum number
of consecutive errors.  The body of the source's terminal branch here
consists only of the comments "Process transcript as above (code omitted for
brevity) ... same transcript processing logic ..." — it performs no
emission and no state update. -/
def stepFinal (s : WatcherState) (fr : FetchResult) : WatcherState × List VEvent :=
  if !s.finalPending then (s, [])
  else
    let s0 := { s with finalPending := false }
    match fr with
    | FetchResult.ok call =>
      if isTerminal call ∧ s0.transcriptProcessed = false then
        (s0, [])
      else (s0, [])
    | FetchResult.err _ _ => (s0, [])

/-- The cleanup function returned to the caller: set `isPolling` to false
and clear the pending poll timeout.  The final-check timeout is a separate
anonymous timer and is not cleared. -/
def stepCancel (s : WatcherState) : WatcherState × List VEvent :=
  ({ s with isPolling := false, timerPending := false }, [])

/-- The inputs the event loop can deliver to one watcher. -/
inductive PollInput
  | tick (fr : FetchResult)
  | finalTick (fr : FetchResult)
  | cancel
deriving DecidableEq, Repr

/-- Dispatch one event-loop input. -/
def pollStep (s : WatcherState) : PollInput → WatcherState × List VEvent
  | PollInput.tick fr => stepTick s fr
  | PollInput.finalTick fr => stepFinal s fr
  | PollInput.cancel => stepCancel s

/-- Run a watcher over a sequence of event-loop inputs, collecting the
emitted events in order. -/
def runPoll : WatcherState → List PollInput → WatcherState × List VEvent
  | s, [] => (s, [])
  | s, i :: rest =>
    let r := pollStep s i
    let r2 := runPoll r.1 rest
    (r2.1, r.2 ++ r2.2)

/-- The closure variables of `setupWebhookHandler`, shared by all watcher
invocations returned by one handler. -/
structure SharedState where
  lastCallStatus : String
  transcriptProcessed : Bool
  consecutiveErrors : Nat
  pollDelay : Nat
deriving DecidableEq, Repr

/-- The handler closure at `setupWebhookHandler` entry. -/
def handlerInit : SharedState :=
  { lastCallStatus := "", transcriptProcessed := false,
    consecutiveErrors := 0, pollDelay := 5000 }

/-- Invoking the per-call watcher: fresh per-call flags (`isPolling = true`,
the initial 3-second poll timeout pending) over the handler's shared
closure variables. -/
def watcherStart (sh : SharedState) : WatcherState :=
  { lastCallStatus := sh.lastCallStatus,
    transcriptProcessed := sh.transcriptProcessed,
    consecutiveErrors := sh.consecutiveErrors,
    pollDelay := sh.pollDelay,
    isPolling := true, timerPending := true, finalPending := false }

/-- The handler closure as left behind by a finished watcher. -/
def sharedOf (s : WatcherState) : SharedState :=
  { lastCallStatus := s.lastCallStatus,
    transcriptProcessed := s.transcriptProcessed,
    consecutiveErrors := s.consecutiveErrors,
    pollDelay := s.pollDelay }

/-- Count of `call-ended` events in an emission sequence. -/
def isCallEndedEv : VEvent → Bool
  | VEvent.callEnded _ => true
  | _ => false

def countCallEnded (evs : List VEvent) : Nat :=
  evs.countP isCallEndedEv

/-- Predicate for the `error` event variant. -/
def isErrorEv : VEvent → Bool
  | VEvent.errorEv _ => true
  | _ => false

/-- Inversion for `transcriptLineEvent`: every emitted event is a
`transcript` event. -/
theorem transcriptLineEvent_shape {line : String} {e : VEvent}
    (h : transcriptLineEvent line = some e) : ∃ r c sp, e = VEvent.transcript r c sp := by
  simp only [transcriptLineEvent] at h
  split at h
  · exact ⟨_, _, _, (Option.some.inj h).symm⟩
  · exact Option.noConfusion h

/-- Every event produced by the transcript parser is a `transcript` event. -/
theorem transcriptEventsOf_shape (t : String) :
    ∀ e ∈ transcriptEventsOf t, ∃ r c sp, e = VEvent.transcript r c sp := by
  intro e he
  unfold transcriptEventsOf at he
  rw [List.mem_filterMap] at he
  obtain ⟨line, _, hline⟩ := he
  exact transcriptLineEvent_shape hline

/-- C6: the raw transcript `"Hello? AI: Hi there. User: I need help."`
parses to exactly three transcript events, in order: `"Hello?"` attributed
to the other party, `"Hi there."` to the agent (`VOX`), `"I need help."` to
the other party; and, in general, a fragment with no recognized speaker tag
is attributed to the other (non-agent) party. -/
theorem transcript_parse_hello_scenario :
    transcriptEventsOf "Hello? AI: Hi there. User: I need help." =
      [VEvent.transcript "user" "Hello?" "Other Party",
       VEvent.transcript "assistant" "Hi there." "VOX",
       VEvent.transcript "user" "I need help." "Other Party"] ∧
    ∀ line : String, jsStartsWith "AI:" line = false → jsStartsWith "User:" line = false →
      ∀ ev, transcriptLineEvent line = some ev →
        ev = VEvent.transcript "user" (jsTrim line) "Other Party" := by
  constructor
  · decide
  · intro line h1 h2 ev hev
    have hsc : lineSpeakerContent line = ("Other Party", jsTrim line) := by
      simp only [lineSpeakerContent, h1, h2, Bool.false_eq_true, if_false, ite_self]
    simp only [transcriptLineEvent, hsc] at hev
    split at hev
    · simp only [Option.some.injEq] at hev
      rw [← hev, if_neg (by decide)]
    · exact Option.noConfusion hev

/-- Witness for `transcript_parse_hello_scenario` on the untagged fragment
`"Hello"`. -/
theorem transcript_parse_hello_scenario_witness :
    VEvent.transcript "user" "Hello" "Other Party" =
      VEvent.transcript "user" (jsTrim "Hello") "Other Party" :=
  transcript_parse_hello_scenario.2 "Hello" (by decide) (by decide) _ (by decide)

/-- `runPoll` distributes over input concatenation. -/
theorem runPoll_append (l1 : List PollInput) :
    ∀ (s : WatcherState) (l2 : List PollInput),
      runPoll s (l1 ++ l2) =
        ((runPoll (runPoll s l1).1 l2).1,
         (runPoll s l1).2 ++ (runPoll (runPoll s l1).1 l2).2) := by
  induction l1 with
  | nil => intro s l2; simp [runPoll]
  | cons i rest ih => intro s l2; simp [runPoll, ih]

/-- A live polling state (fresh watcher shape) stays live across a
successful non-terminal poll: the tick emits at most one status event and
reschedules the timer. -/
theorem stepTick_ok_nonterminal (last : String) (c : CallData)
    (h1 : c.status ≠ "ended") (h2 : c.endedAt = none) :
    stepTick ⟨last, false, 0, 5000, true, true, false⟩ (FetchResult.ok c) =
      (⟨if c.status ≠ "" ∧ c.status ≠ last then c.status else last,
        false, 0, 5000, true, true, false⟩,
       if c.status ≠ "" ∧ c.status ≠ last then [VEvent.callStatus c.status] else []) := by
  have hterm : isTerminal c = false := by
    simp [isTerminal, h1, h2]
  by_cases hch : c.status ≠ "" ∧ c.status ≠ last <;>
    simp [stepTick, hterm, hch]

/-- A live polling state processes a terminal poll by emitting the optional
status event, the transcript-derived events and the final `call-ended`
event, then stops. -/
theorem stepTick_ok_terminal (last : String) (c : CallData)
    (h : isTerminal c = true) :
    stepTick ⟨last, false, 0, 5000, true, true, false⟩ (FetchResult.ok c) =
      (⟨if c.status ≠ "" ∧ c.status ≠ last then c.status else last,
        true, 0, 5000, false, false, false⟩,
       (if c.status ≠ "" ∧ c.status ≠ last then [VEvent.callStatus c.status] else []) ++
         terminalEvents c) := by
  by_cases hch : c.status ≠ "" ∧ c.status ≠ last <;>
    simp [stepTick, h, hch]

/-- Over any sequence of successful non-terminal polls, a fresh watcher
stays in the live shape and emits only status events. -/
theorem runPoll_nonterminal (pre : List CallData) :
    ∀ (last : String),
      (∀ c ∈ pre, c.status ≠ "ended" ∧ c.endedAt = none) →
      ∃ last' evs,
        runPoll ⟨last, false, 0, 5000, true, true, false⟩
            (pre.map fun c => PollInput.tick (FetchResult.ok c)) =
          (⟨last', false, 0, 5000, true, true, false⟩, evs) ∧
        (∀ e ∈ evs, ∃ st, e = VEvent.callStatus st) := by
  induction pre with
  | nil =>
    intro last _
    exact ⟨last, [], rfl, by simp⟩
  | cons c rest ih =>
    intro last hpre
    obtain ⟨h1, h2⟩ := hpre c (List.mem_cons_self _ _)
    have hstep := stepTick_ok_nonterminal last c h1 h2
    obtain ⟨last', evs, hrun, hevs⟩ :=
      ih (if c.status ≠ "" ∧ c.status ≠ last then c.status else last)
        (fun c' hc' => hpre c' (List.mem_cons_of_mem _ hc'))
    refine ⟨last',
      (if c.status ≠ "" ∧ c.status ≠ last then [VEvent.callStatus c.status] else []) ++ evs,
      ?_, ?_⟩
    · simp only [List.map_cons, runPoll, pollStep, hstep, hrun]
    · intro e he
      rcases List.mem_append.mp he with h | h
      · rcases (by split at h <;> simp_all :
          e = VEvent.callStatus c.status ∨ False) with rfl | hf
        · exact ⟨c.status, rfl⟩
        · exact absurd hf (by simp)
      · exact hevs e h

/-- The terminal emission batch ends with the `call-ended` event. -/
theorem getLast_append_terminalEvents (xs : List VEvent) (c : CallData) :
    (xs ++ terminalEvents c).getLast? = some (VEvent.callEnded c) := by
  unfold terminalEvents
  rw [← List.append_assoc, ← List.append_assoc, List.getLast?_concat]

/-- The terminal emission batch contains exactly one `call-ended` event. -/
theorem countCallEnded_terminalEvents (c : CallData) :
    countCallEnded (terminalEvents c) = 1 := by
  have htr : ∀ t : String, (transcriptEventsOf t).countP isCallEndedEv = 0 := by
    intro t
    rw [List.countP_eq_zero]
    intro e he
    obtain ⟨r, cc, sp, rfl⟩ := transcriptEventsOf_shape t e he
    simp [isCallEndedEv]
  unfold terminalEvents countCallEnded
  rw [List.countP_append, List.countP_append]
  have hA : (match c.transcript with
    | some t => if t ≠ "" then transcriptEventsOf t else []
    | none => ([] : List VEvent)).countP isCallEndedEv = 0 := by
    rcases c.transcript with _ | t
    · rfl
    · by_cases ht : t ≠ "" <;> simp [ht, htr]
  have hB : (match c.analysisSummary with
    | some summary =>
      if summary ≠ "" then
        [VEvent.transcript "system" ("Call Summary: " ++ summary) "System"]
      else []
    | none => ([] : List VEvent)).countP isCallEndedEv = 0 := by
    rcases c.analysisSummary with _ | summary
    · rfl
    · by_cases hs : summary ≠ "" <;> simp [hs, isCallEndedEv]
  rw [hA, hB]
  simp [isCallEndedEv]

/-- The call resource of a call that has ended with no transcript. -/
def endedCall : CallData :=
  { status := "ended", endedAt := none, transcript := none, analysisSummary := none }

/-- First watcher invocation of a handler, polling one terminal status. -/
def sessionA : WatcherState × List VEvent :=
  runPoll (watcherStart handlerInit) [PollInput.tick (FetchResult.ok endedCall)]

/-- Second watcher invocation through the same handler closure, polling the
same terminal status. -/
def sessionB : WatcherState × List VEvent :=
  runPoll (watcherStart (sharedOf sessionA.1)) [PollInput.tick (FetchResult.ok endedCall)]

/-- C1 counterexample: because `transcriptProcessed` (and `lastCallStatus`)
live in the `setupWebhookHandler` closure shared by all watcher invocations,
a second session watched in sequence through the same handler emits zero
`call-ended` events (and in fact no events at all) even though its polled
status sequence ends terminal — refuting "exactly one call-ended per
session" for sessions after the first. -/
theorem call_ended_second_session_counterexample :
    countCallEnded sessionA.2 = 1 ∧ countCallEnded sessionB.2 = 0 := by decide

/-- C1 (amended): for the first session watched by a handler (fresh closure
state), over any sequence of successfully polled statuses whose last element
is terminal (status `"ended"` or an end timestamp present) and whose earlier
elements are non-terminal, exactly one `call-ended` event is emitted and it
is the last event emitted. -/
theorem call_ended_once_first_session (pre : List CallData) (fin : CallData)
    (hpre : ∀ c ∈ pre, c.status ≠ "ended" ∧ c.endedAt = none)
    (hfin : isTerminal fin = true) :
    countCallEnded (runPoll (watcherStart handlerInit)
        ((pre.map fun c => PollInput.tick (FetchResult.ok c)) ++
         [PollInput.tick (FetchResult.ok fin)])).2 = 1 ∧
    (runPoll (watcherStart handlerInit)
        ((pre.map fun c => PollInput.tick (FetchResult.ok c)) ++
         [PollInput.tick (FetchResult.ok fin)])).2.getLast? =
      some (VEvent.callEnded fin) := by
  obtain ⟨last', evs, hrun, hevs⟩ := runPoll_nonterminal pre "" hpre
  have hw : watcherStart handlerInit =
      (⟨"", false, 0, 5000, true, true, false⟩ : WatcherState) := rfl
  rw [hw, runPoll_append, hrun]
  have hlaststep := stepTick_ok_terminal last' fin hfin
  have hone : runPoll (⟨last', false, 0, 5000, true, true, false⟩ : WatcherState)
      [PollInput.tick (FetchResult.ok fin)] =
      ((stepTick ⟨last', false, 0, 5000, true, true, false⟩ (FetchResult.ok fin)).1,
       (stepTick ⟨last', false, 0, 5000, true, true, false⟩ (FetchResult.ok fin)).2 ++ []) := by
    simp [runPoll, pollStep]
  rw [hone, hlaststep]
  have hcevs : evs.countP isCallEndedEv = 0 := by
    rw [List.countP_eq_zero]
    intro e he
    obtain ⟨st, rfl⟩ := hevs e he
    simp [isCallEndedEv]
  constructor
  · simp only [countCallEnded, List.append_nil, List.countP_append, hcevs]
    have hst : (if fin.status ≠ "" ∧ fin.status ≠ last' then
        [VEvent.callStatus fin.status] else []).countP isCallEndedEv = 0 := by
      split <;> simp [isCallEndedEv]
    rw [hst]
    have := countCallEnded_terminalEvents fin
    unfold countCallEnded at this
    omega
  · simp only [List.append_nil, ← List.append_assoc]
    exact getLast_append_terminalEvents _ fin

/-- Witness for `call_ended_once_first_session`: a one-poll session whose
only polled status is terminal. -/
theorem call_ended_once_first_session_witness :
    countCallEnded (runPoll (watcherStart handlerInit)
        [PollInput.tick (FetchResult.ok endedCall)]).2 = 1 ∧
    (runPoll (watcherStart handlerInit)
        [PollInput.tick (FetchResult.ok endedCall)]).2.getLast? =
      some (VEvent.callEnded endedCall) :=
  call_ended_once_first_session [] endedCall (by simp) (by decide)

/-- Count of `error` events in an emission sequence. -/
def countErrorEv (evs : List VEvent) : Nat :=
  evs.countP isErrorEv

/-- The terminal emission batch contains no `error` event. -/
theorem terminalEvents_no_error (c : CallData) :
    countErrorEv (terminalEvents c) = 0 := by
  have htr : ∀ t : String, (transcriptEventsOf t).countP isErrorEv = 0 := by
    intro t
    rw [List.countP_eq_zero]
    intro e he
    obtain ⟨r, cc, sp, rfl⟩ := transcriptEventsOf_shape t e he
    simp [isErrorEv]
  unfold terminalEvents countErrorEv
  rw [List.countP_append, List.countP_append]
  have hA : (match c.transcript with
    | some t => if t ≠ "" then transcriptEventsOf t else []
    | none => ([] : List VEvent)).countP isErrorEv = 0 := by
    rcases c.transcript with _ | t
    · rfl
    · by_cases ht : t ≠ "" <;> simp [ht, htr]
  have hB : (match c.analysisSummary with
    | some summary =>
      if summary ≠ "" then
        [VEvent.transcript "system" ("Call Summary: " ++ summary) "System"]
      else []
    | none => ([] : List VEvent)).countP isErrorEv = 0 := by
    rcases c.analysisSummary with _ | summary
    · rfl
    · by_cases hs : summary ≠ "" <;> simp [hs, isErrorEv]
  rw [hA, hB]
  simp [isErrorEv]

theorem isErrorEv_callStatus (st : String) :
    isErrorEv (VEvent.callStatus st) = false := rfl

/-- No single event-loop step ever emits an `error` event. -/
theorem pollStep_no_error (s : WatcherState) (i : PollInput) :
    countErrorEv (pollStep s i).2 = 0 := by
  cases i with
  | tick fr =>
    cases fr with
    | ok call =>
      have hterm := terminalEvents_no_error call
      unfold countErrorEv at hterm ⊢
      simp only [pollStep, stepTick]
      repeat' split
      all_goals
        simp [List.countP_append, List.countP_cons, hterm, isErrorEv_callStatus]
    | err isRateLimit isCors =>
      unfold countErrorEv
      simp only [pollStep, stepTick]
      repeat' split
      all_goals simp [List.countP_cons, isErrorEv_callStatus]
  | finalTick fr =>
    cases fr with
    | ok call =>
      simp only [pollStep, stepFinal]
      repeat' split
      all_goals simp [countErrorEv]
    | err _ _ =>
      simp only [pollStep, stepFinal]
      repeat' split
      all_goals simp [countErrorEv]
  | cancel => rfl

/-- No run of the polling loop ever emits an `error` event. -/
theorem runPoll_no_error (inputs : List PollInput) :
    ∀ s : WatcherState, countErrorEv (runPoll s inputs).2 = 0 := by
  induction inputs with
  | nil => intro s; rfl
  | cons i rest ih =>
    intro s
    simp only [runPoll, countErrorEv, List.countP_append]
    have h1 := pollStep_no_error s i
    have h2 := ih (pollStep s i).1
    unfold countErrorEv at h1 h2
    omega

/-- C7 (amended): a provider fetch failure never crosses the polling loop as
an exception (every step is total and, in any run, no event of the `error`
variant is ever emitted); a transient failure below the consecutive-error
threshold keeps the regular polling scheduled (retry); and what repeated
backoff-class failures surface to the consumer is a `call-status`
`"monitoring"` event at exactly the third consecutive failure — not an
`Error` canonical event. -/
theorem provider_errors_absorbed :
    (∀ (s : WatcherState) (inputs : List PollInput),
       countErrorEv (runPoll s inputs).2 = 0) ∧
    (∀ (s : WatcherState) (rl co : Bool),
       s.isPolling = true → s.timerPending = true →
       s.consecutiveErrors + 1 < 5 →
       (stepTick s (FetchResult.err rl co)).1.timerPending = true) ∧
    (runPoll (watcherStart handlerInit)
        (List.replicate 3 (PollInput.tick (FetchResult.err true false)))).2 =
      [VEvent.callStatus "monitoring"] := by
  refine ⟨fun s inputs => runPoll_no_error inputs s, ?_, by decide⟩
  intro s rl co hp ht hlt
  simp only [stepTick, ht, Bool.not_true, Bool.false_eq_true, if_false, hp]
  split
  · omega
  · simp [hp]

/-- Witness for `provider_errors_absorbed`: a fresh watcher observing one
rate-limited failure emits nothing and stays scheduled. -/
theorem provider_errors_absorbed_witness :
    countErrorEv (runPoll (watcherStart handlerInit)
        [PollInput.tick (FetchResult.err true false)]).2 = 0 ∧
    (stepTick (watcherStart handlerInit) (FetchResult.err true false)).1.timerPending =
      true :=
  ⟨provider_errors_absorbed.1 _ _,
   provider_errors_absorbed.2.1 (watcherStart handlerInit) true false rfl rfl
     (by decide)⟩

/-- A terminal call resource, with transcript, found by the final check. -/
def endedWithTranscript : CallData :=
  { status := "ended", endedAt := some "2025-01-01T00:00:00.000Z",
    transcript := some "AI: Hello.", analysisSummary := none }

/-- Five consecutive failed polls (plain network errors). -/
def fiveErrors : List PollInput :=
  List.replicate 5 (PollInput.tick (FetchResult.err false false))

/-- C8: after the configured maximum of 5 consecutive fetch failures the
loop stops regular polling and schedules exactly one delayed final check —
but the final check's terminal branch is an empty stub (its body consists
only of the source comments "Process transcript as above (code omitted for
brevity) ... same transcript processing logic ..."), so even when it finds
the call terminal with an unprocessed, parseable transcript, no transcript
events and no `call-ended` event are emitted: the terminal event is lost,
contrary to the claim (and to the code's own comment). -/
theorem final_check_loses_call_ended :
    (runPoll (watcherStart handlerInit) fiveErrors).1.isPolling = false ∧
    (runPoll (watcherStart handlerInit) fiveErrors).1.finalPending = true ∧
    (runPoll (watcherStart handlerInit) fiveErrors).1.transcriptProcessed = false ∧
    isTerminal endedWithTranscript = true ∧
    transcriptEventsOf "AI: Hello." =
      [VEvent.transcript "assistant" "Hello." "VOX"] ∧
    (runPoll (watcherStart handlerInit)
        (fiveErrors ++ [PollInput.finalTick (FetchResult.ok endedWithTranscript)])).2 =
      [] ∧
    countCallEnded (runPoll (watcherStart handlerInit)
        (fiveErrors ++ [PollInput.finalTick (FetchResult.ok endedWithTranscript)])).2 =
      0 := by
  decide

/-- Any state with no pending poll timeout stays silent: each further input
leaves no poll timeout pending and emits nothing. -/
theorem pollStep_silent (s : WatcherState) (h : s.timerPending = false) :
    ∀ i, (pollStep s i).1.timerPending = false ∧ (pollStep s i).2 = [] := by
  intro i
  cases i with
  | tick fr =>
    simp [pollStep, stepTick, h]
  | finalTick fr =>
    cases fr with
    | ok call =>
      simp only [pollStep, stepFinal]
      repeat' split
      all_goals simp_all
    | err _ _ =>
      simp only [pollStep, stepFinal]
      repeat' split
      all_goals simp_all
  | cancel => simp [pollStep, stepCancel]

/-- No run from a state with no pending poll timeout emits any event. -/
theorem runPoll_silent (inputs : List PollInput) :
    ∀ s : WatcherState, s.timerPending = false → (runPoll s inputs).2 = [] := by
  induction inputs with
  | nil => intro s _; rfl
  | cons i rest ih =>
    intro s h
    obtain ⟨h1, h2⟩ := pollStep_silent s h i
    simp only [runPoll, h2, List.nil_append]
    exact ih _ h1

/-- C9: the cancellation handle is idempotent — invoking it twice yields the
same state as invoking it once and emits nothing either time — and after any
invocation, from any state (before the first tick, mid-backoff, or after
natural termination), no further polling tick fires (a tick input leaves the
state unchanged and emits nothing) and no further events are emitted for the
call under any continuation of event-loop inputs. -/
theorem cancel_idempotent_and_silences (s : WatcherState) :
    (stepCancel (stepCancel s).1).1 = (stepCancel s).1 ∧
    (stepCancel s).2 = [] ∧
    (stepCancel (stepCancel s).1).2 = [] ∧
    (∀ fr, pollStep (stepCancel s).1 (PollInput.tick fr) = ((stepCancel s).1, [])) ∧
    (∀ inputs, (runPoll (stepCancel s).1 inputs).2 = []) := by
  refine ⟨rfl, rfl, rfl, fun fr => rfl, fun inputs => ?_⟩
  exact runPoll_silent inputs _ rfl

/-- C7 counterexample: even past the consecutive-error threshold — five
consecutive rate-limited failures on a fresh watcher — the loop emits no
event of the `error` variant at all; the only surfaced event is the
`call-status` `"monitoring"` event at the third failure.  This refutes the
claim that repeated consecutive failures are surfaced to the consumer as an
`Error` canonical event. -/
theorem error_event_never_surfaced_counterexample :
    countErrorEv (runPoll (watcherStart handlerInit)
        (List.replicate 5 (PollInput.tick (FetchResult.err true false)))).2 = 0 ∧
    (runPoll (watcherStart handlerInit)
        (List.replicate 5 (PollInput.tick (FetchResult.err true false)))).2 =
      [VEvent.callStatus "monitoring"] := by decide
